import Mathlib

/-!
Shallow embedding of `bdk-reserves-web` (`src/main.rs`), a proof-of-reserves
verification web service, together with a spec-derived model of the external
reserve-proof verifier (`bdk_reserves::reserves::verify_proof`, whose source
is not part of this repository).

External library calls (base64 decoding, PSBT deserialization, address
parsing, the Electrum chain client, `verify_proof`) are modelled as oracle
functions collected in `Env` and `ChainClient`; the control flow of
`handle_ext_reserves`, `get_outpoints_for_address` and `check_proof` is
translated statement by statement from the Rust source.  Rust `format!`d
error values are modelled as the `String` that `{:?}` would render, so the
error strings built by the code appear verbatim.  A Rust panic (out-of-bounds
`Vec` indexing) is a distinct outcome `RunRes.panic`.  External interactions
are logged in an event trace so that properties such as "the chain height is
queried exactly once" are statable.
-/

set_option autoImplicit false

namespace BdkReservesWeb

/-- Largest value of a Rust `usize` (64-bit target). -/
def USIZE_MAX : Nat := 2 ^ 64 - 1

/-- Rust release-mode `usize` subtraction (wraps on underflow). -/
def usizeSub (a b : Nat) : Nat := (a + (USIZE_MAX + 1) - b) % (USIZE_MAX + 1)

/-- Transaction ids are opaque; we model them as naturals. -/
abbrev TxId := Nat

/-- A script pubkey, opaque byte string. -/
abbrev Script := List Nat

/-- Raw bytes (the base64-decoded proof payload). -/
abbrev Bytes := List Nat

/-- `bitcoin::TxOut`: value in satoshi plus the script pubkey. -/
structure TxOut where
  value : Nat
  script_pubkey : Script
deriving DecidableEq, Repr

/-- `bitcoin::OutPoint`: (txid, output index). -/
structure OutPoint where
  txid : TxId
  vout : Nat
deriving DecidableEq, Repr

/-- A fetched transaction; only its output list matters to the resolver. -/
structure Tx where
  output : List TxOut
deriving DecidableEq, Repr

/-- `electrum_client::ListUnspentRes`: one unspent output as reported by the
chain client, with its confirmation height (`0` means in-mempool). -/
structure ListUnspentRes where
  tx_hash : TxId
  tx_pos : Nat
  height : Nat
  value : Nat
deriving DecidableEq, Repr

/-- The two networks the service selects between. -/
inductive Network where
  | bitcoin
  | testnet
deriving DecidableEq, Repr

/-- A parsed `bitcoin::Address`; the resolver only uses its script pubkey. -/
structure Address where
  script_pubkey : Script
deriving DecidableEq, Repr

/-- The decoded PSBT, reduced to what the verifier inspects: the previous
outpoint of each input of the embedded unsigned transaction (input 0 is the
commitment input, the rest are reserve inputs). -/
structure ProofTx where
  inputs : List OutPoint
deriving DecidableEq, Repr

/-- The deserialized proof object handed to `verify_proof`. -/
abbrev Psbt := ProofTx

/-- The JSON value the handler produces: either `json!({"spendable": n})` or
`json!({"error": e})`. -/
inductive Json where
  | spendable (total : Nat)
  | error (msg : String)
deriving DecidableEq, Repr

/-- One logged interaction with an external collaborator. -/
inductive Event where
  | mkClientCall (server : String)
  | heightQuery
  | listUnspentQuery (script : Script)
  | txQuery (txid : TxId)
  | verifyCall (network : Network)
deriving DecidableEq, Repr

/-- Outcome of running a piece of Rust code: normal value, `Err` propagated
with its formatted message, or a panic. -/
inductive RunRes (α : Type) where
  | ok (a : α)
  | err (e : String)
  | panic
deriving DecidableEq, Repr

/-- The Electrum chain client, as the three queries the code performs.
Errors are represented by the `String` their Rust `Debug` form renders. -/
structure ChainClient where
  block_height : Except String Nat
  script_list_unspent : Script → Except String (List ListUnspentRes)
  transaction_get : TxId → Except String Tx

/-- The external library functions `handle_ext_reserves` and `check_proof`
call, as oracles.  Each error value is the `String` its `Debug` form renders. -/
structure Env where
  base64_decode : String → Except String Bytes
  psbt_deserialize : Bytes → Except String Psbt
  address_from_str : String → Except String Address
  client_new : String → Except String ChainClient
  verify_proof : Psbt → String → List (OutPoint × TxOut) → Network → Except String Nat

/-- Rust `str::starts_with('2')`: true exactly when the first character of
the string is `2`. -/
def starts_with_two (s : String) : Bool :=
  match s.data with
  | [] => false
  | c :: _ => c = '2'

/-- The server/network pair chosen in `handle_ext_reserves`:
testnet when the first address starts with the character `2`, mainnet
otherwise (`src/main.rs:106-110`). -/
def select_server_network (addr0 : String) : String × Network :=
  if starts_with_two addr0 then
    ("ssl://electrum.blockstream.info:60002", Network.testnet)
  else
    ("ssl://electrum.blockstream.info:50002", Network.bitcoin)

/-- The `.map(...).collect()` body of `get_outpoints_for_address`
(`src/main.rs:156-172`): for each retained unspent output, fetch the
referencing transaction and index into its outputs.  `tx.output[utxo.tx_pos]`
is Rust `Vec` indexing, which panics when the index is out of bounds. -/
def resolve_utxos (client : ChainClient) :
    List ListUnspentRes → RunRes (List (OutPoint × TxOut)) × List Event
  | [] => (.ok [], [])
  | u :: rest =>
    match client.transaction_get u.tx_hash with
    | .error e => (.err e, [.txQuery u.tx_hash])
    | .ok tx =>
      match tx.output[u.tx_pos]? with
      | none => (.panic, [.txQuery u.tx_hash])
      | some out =>
        match resolve_utxos client rest with
        | (.ok l, tr) =>
            (.ok ((OutPoint.mk u.tx_hash u.tx_pos, out) :: l), .txQuery u.tx_hash :: tr)
        | (.err e, tr) => (.err e, .txQuery u.tx_hash :: tr)
        | (.panic, tr) => (.panic, .txQuery u.tx_hash :: tr)

/-- `get_outpoints_for_address` (`src/main.rs:142-173`): list the unspent
outputs at the address's script pubkey, keep those with
`height > 0 && height <= max_confirmation_height.unwrap_or(usize::MAX)`,
then materialize each one via `resolve_utxos`. -/
def get_outpoints_for_address (client : ChainClient) (address : Address)
    (max_confirmation_height : Option Nat) :
    RunRes (List (OutPoint × TxOut)) × List Event :=
  match client.script_list_unspent address.script_pubkey with
  | .error e => (.err e, [.listUnspentQuery address.script_pubkey])
  | .ok unspents =>
    let retained := unspents.filter fun u =>
      decide (0 < u.height) && decide (u.height ≤ max_confirmation_height.getD USIZE_MAX)
    ((resolve_utxos client retained).1,
     .listUnspentQuery address.script_pubkey :: (resolve_utxos client retained).2)

/-- The per-address `.map(...).collect::<Result<Vec<Vec<_>>, String>>()` of
`handle_ext_reserves` (`src/main.rs:120-127`): parse each address string
(mapping a parse error to `"Invalid address: {:?}"` — note: no index), then
resolve its outpoints; the collect short-circuits at the first failure. -/
def resolve_addresses (env : Env) (client : ChainClient)
    (max_confirmation_height : Option Nat) :
    List String → RunRes (List (List (OutPoint × TxOut))) × List Event
  | [] => (.ok [], [])
  | a :: rest =>
    match env.address_from_str a with
    | .error e => (.err ("Invalid address: " ++ e), [])
    | .ok addr =>
      match get_outpoints_for_address client addr max_confirmation_height with
      | (.err e, tr) => (.err e, tr)
      | (.panic, tr) => (.panic, tr)
      | (.ok outs, tr) =>
        match resolve_addresses env client max_confirmation_height rest with
        | (.ok l, tr2) => (.ok (outs :: l), tr ++ tr2)
        | (.err e, tr2) => (.err e, tr ++ tr2)
        | (.panic, tr2) => (.panic, tr ++ tr2)

/-- The tail of `handle_ext_reserves` after the confirmation threshold has
been computed (`src/main.rs:120-138`): resolve every address against the one
shared threshold, concatenate the per-address lists with the `fold`/`append`
of the source, and call `verify_proof`. -/
def after_height (env : Env) (message : String) (psbt : Psbt)
    (client : ChainClient) (network : Network)
    (max_confirmation_height : Option Nat) (addresses : List String) :
    RunRes Json × List Event :=
  match resolve_addresses env client max_confirmation_height addresses with
  | (.err e, tr) => (.err e, tr)
  | (.panic, tr) => (.panic, tr)
  | (.ok outpoints_per_addr, tr) =>
    let outpoints_combined :=
      outpoints_per_addr.foldl (fun outpoints outs => outpoints ++ outs) []
    match env.verify_proof psbt message outpoints_combined network with
    | .error e => (.err e, tr ++ [.verifyCall network])
    | .ok spendable => (.ok (.spendable spendable), tr ++ [.verifyCall network])

/-- `handle_ext_reserves` (`src/main.rs:94-139`), step by step: base64
decode, PSBT deserialization, empty-address check, server/network selection
from the first address, client creation, one height query, threshold
computation `current_block_height - confirmations`, then `after_height`. -/
def handle_ext_reserves (env : Env) (message : String) (psbt_str : String)
    (confirmations : Nat) (addresses : List String) :
    RunRes Json × List Event :=
  match env.base64_decode psbt_str with
  | .error e => (.err ("Base64 decode error: " ++ e), [])
  | .ok bytes =>
    match env.psbt_deserialize bytes with
    | .error e => (.err ("PSBT deserialization error: " ++ e), [])
    | .ok psbt =>
      match addresses with
      | [] => (.err "No address provided", [])
      | a0 :: rest =>
        let sn := select_server_network a0
        match env.client_new sn.1 with
        | .error e =>
            (.err ("Failed to create Electrum client: " ++ e), [.mkClientCall sn.1])
        | .ok client =>
          match client.block_height with
          | .error e =>
              (.err ("Failed to get block height: " ++ e),
               [.mkClientCall sn.1, .heightQuery])
          | .ok current_block_height =>
            let max_confirmation_height :=
              some (usizeSub current_block_height confirmations)
            ((after_height env message psbt client sn.2
                max_confirmation_height (a0 :: rest)).1,
             .mkClientCall sn.1 :: .heightQuery ::
               (after_height env message psbt client sn.2
                 max_confirmation_height (a0 :: rest)).2)

/-- The two process-wide Prometheus counters. -/
structure Counters where
  por_success : Nat
  por_invalid : Nat
deriving DecidableEq, Repr

/-- `check_proof` (`src/main.rs:73-92`): run `handle_ext_reserves` with the
constant `3` for `confirmations`; on `Err` increment the invalid-proof
counter and answer `json!({"error": e})`, on `Ok` increment the success
counter and answer the result.  A panic propagates and touches no counter. -/
def check_proof (env : Env) (message : String) (psbt_str : String)
    (addresses : List String) (counters : Counters) :
    RunRes Json × Counters × List Event :=
  match handle_ext_reserves env message psbt_str 3 addresses with
  | (.err e, tr) =>
      (.ok (.error e), { counters with por_invalid := counters.por_invalid + 1 }, tr)
  | (.ok res, tr) =>
      (.ok res, { counters with por_success := counters.por_success + 1 }, tr)
  | (.panic, tr) => (.panic, counters, tr)

/-! ### Spec-derived model of the external reserve-proof verifier -/

/-- Failure kinds of the modelled verifier (spec §7). -/
inductive ProofError where
  | MessageMismatch
  | NonSpendableInput (i : Nat)
  | InvalidSignature (i : Nat)
deriving DecidableEq, Repr

/-- Remove the first record of the resolved list whose outpoint equals `op`
(the spec's "mark the record consumed"), returning its output. -/
def removeFirst : List (OutPoint × TxOut) → OutPoint →
    Option (TxOut × List (OutPoint × TxOut))
  | [], _ => none
  | p :: rest, op =>
    if p.1 = op then some (p.2, rest)
    else
      match removeFirst rest op with
      | none => none
      | some (out, rest2) => some (out, p :: rest2)

/-- Modelled from the spec: step 2 of the verification algorithm (§4.3) of
`bdk_reserves::reserves::verify_proof`, whose source is not part of this
repository.  Walk the reserve inputs in ascending order (`i` is the input
index of the head, the first reserve input having index 1); look each
previous outpoint up in the not-yet-consumed resolved list; on the first
failed lookup report that input's index, otherwise sum the matched values. -/
def matchReserves :
    List (OutPoint × TxOut) → List OutPoint → Nat →
    Except Nat (Nat × List (OutPoint × TxOut))
  | pool, [], _ => .ok (0, pool)
  | pool, op :: rest, i =>
    match removeFirst pool op with
    | none => .error i
    | some (out, pool2) =>
      match matchReserves pool2 rest (i + 1) with
      | .error j => .error j
      | .ok (total, pool3) => .ok (out.value + total, pool3)

/-- Modelled from the spec: step 3 of §4.3 — the signature oracle judges each
input index; the first invalid one is reported. -/
def firstBadSig (sig_ok : Nat → Bool) (n : Nat) : Option Nat :=
  (List.range n).find? fun i => ! sig_ok i

/-- Modelled from the spec: the Reserve Proof Verifier (§4.3) of
`bdk_reserves::reserves::verify_proof`, whose source is not part of this
repository.  `commitment` is the fixed derivation rule turning the challenge
message into the expected commitment previous-outpoint; `sig_ok` is the
script/signature validation capability.  Step 1 checks the commitment input,
step 2 matches every reserve input against the resolved list consuming
matched records, step 3 validates signatures, steps 4–5 return the total. -/
def verify_proof_model (commitment : String → OutPoint) (sig_ok : Nat → Bool)
    (tx : ProofTx) (message : String)
    (outpoints : List (OutPoint × TxOut)) : Except ProofError Nat :=
  match tx.inputs with
  | [] => .error .MessageMismatch
  | c :: reserves =>
    if c ≠ commitment message then .error .MessageMismatch
    else
      match matchReserves outpoints reserves 1 with
      | .error i => .error (.NonSpendableInput i)
      | .ok (total, _) =>
        match firstBadSig sig_ok tx.inputs.length with
        | some i => .error (.InvalidSignature i)
        | none => .ok total

/-- Input index (commitment input = 0) of the first reserve input whose
previous outpoint is absent from the resolved UTXO list, read statically
(without consumption) — the quantity claim C2 speaks about. -/
def firstAbsentIdx (outpoints : List (OutPoint × TxOut))
    (reserves : List OutPoint) : Option Nat :=
  reserves.findIdx? (fun op => ! outpoints.any fun p => p.1 = op) 1

/-- The unspent outputs `get_outpoints_for_address` retains when the
threshold is `some t`: confirmation height strictly positive and at most
`t`. -/
def retainedUtxos (us : List ListUnspentRes) (t : Nat) : List ListUnspentRes :=
  us.filter fun u => decide (0 < u.height) && decide (u.height ≤ t)

/-! ### Helper lemmas -/

theorem resolve_utxos_ok_map (client : ChainClient) (us : List ListUnspentRes) :
    ∀ l, (resolve_utxos client us).1 = RunRes.ok l →
      l.map Prod.fst = us.map fun u => OutPoint.mk u.tx_hash u.tx_pos := by
  induction us with
  | nil =>
    intro l h
    simp only [resolve_utxos] at h
    cases h
    simp
  | cons u rest ih =>
    intro l h
    simp only [resolve_utxos] at h
    split at h
    · simp at h
    · split at h
      · simp at h
      · rename_i tx htx out hout
        split at h
        · rename_i l2 tr heq
          simp only at h
          cases h
          simpa using ih l2 (by rw [heq])
        · simp at h
        · simp at h

/-! ### C1 -/

/-- C1: for every address and every chain-client response, the UTXO resolver
retains an unspent output if and only if its confirmation height is greater
than zero and at most the confirmation threshold `t`; in particular an
output whose height equals `t` exactly is retained and one whose height is
`t + 1` is excluded.  The outpoints the resolver materializes are exactly
those of the retained unspents, in discovery order. -/
theorem confirmation_filter_correct (client : ChainClient) (address : Address)
    (t : Nat) (us : List ListUnspentRes) (l : List (OutPoint × TxOut))
    (hus : client.script_list_unspent address.script_pubkey = .ok us)
    (hok : (get_outpoints_for_address client address (some t)).1 = RunRes.ok l) :
    l.map Prod.fst = (retainedUtxos us t).map (fun u => OutPoint.mk u.tx_hash u.tx_pos)
    ∧ (∀ u ∈ us, u ∈ retainedUtxos us t ↔ (0 < u.height ∧ u.height ≤ t))
    ∧ (∀ u ∈ us, u.height = t → 0 < t → u ∈ retainedUtxos us t)
    ∧ (∀ u ∈ us, u.height = t + 1 → u ∉ retainedUtxos us t) := by
  have hres : (resolve_utxos client (retainedUtxos us t)).1 = RunRes.ok l := by
    simpa [get_outpoints_for_address, hus, retainedUtxos] using hok
  refine ⟨resolve_utxos_ok_map client _ l hres, ?_, ?_, ?_⟩
  · intro u hu
    simp [retainedUtxos, List.mem_filter, hu]
  · intro u hu hheight hpos
    simp [retainedUtxos, List.mem_filter, hu, hheight, hpos]
  · intro u hu hheight
    simp [retainedUtxos, List.mem_filter, hu, hheight]

/-- Concrete chain client for the C1 witness: one unspent at the threshold,
one a block shallower, one still in the mempool. -/
def boundaryClient : ChainClient where
  block_height := .ok 13
  script_list_unspent := fun _ =>
    .ok [⟨1, 0, 10, 100⟩, ⟨2, 0, 11, 100⟩, ⟨3, 0, 0, 100⟩]
  transaction_get := fun _ => .ok ⟨[⟨100, []⟩]⟩

theorem confirmation_filter_correct_witness :
    [(OutPoint.mk 1 0, TxOut.mk 100 [])].map Prod.fst =
      (retainedUtxos [⟨1, 0, 10, 100⟩, ⟨2, 0, 11, 100⟩, ⟨3, 0, 0, 100⟩] 10).map
        (fun u => OutPoint.mk u.tx_hash u.tx_pos)
    ∧ (∀ u ∈ [ListUnspentRes.mk 1 0 10 100, ⟨2, 0, 11, 100⟩, ⟨3, 0, 0, 100⟩],
        u ∈ retainedUtxos [⟨1, 0, 10, 100⟩, ⟨2, 0, 11, 100⟩, ⟨3, 0, 0, 100⟩] 10 ↔
          (0 < u.height ∧ u.height ≤ 10))
    ∧ (∀ u ∈ [ListUnspentRes.mk 1 0 10 100, ⟨2, 0, 11, 100⟩, ⟨3, 0, 0, 100⟩],
        u.height = 10 → 0 < 10 →
          u ∈ retainedUtxos [⟨1, 0, 10, 100⟩, ⟨2, 0, 11, 100⟩, ⟨3, 0, 0, 100⟩] 10)
    ∧ (∀ u ∈ [ListUnspentRes.mk 1 0 10 100, ⟨2, 0, 11, 100⟩, ⟨3, 0, 0, 100⟩],
        u.height = 10 + 1 →
          u ∉ retainedUtxos [⟨1, 0, 10, 100⟩, ⟨2, 0, 11, 100⟩, ⟨3, 0, 0, 100⟩] 10) :=
  confirmation_filter_correct boundaryClient ⟨[]⟩ 10
    [⟨1, 0, 10, 100⟩, ⟨2, 0, 11, 100⟩, ⟨3, 0, 0, 100⟩]
    [(OutPoint.mk 1 0, TxOut.mk 100 [])] rfl (by decide)

/-! ### C4 -/

/-- Chain client exhibiting the out-of-range recorded index: the reported
unspent sits at `tx_pos = 1`, but the fetched transaction has a single
output, so `tx.output[1]` is out of bounds. -/
def oobClient : ChainClient where
  block_height := .ok 105
  script_list_unspent := fun _ => .ok [⟨7, 1, 5, 1000⟩]
  transaction_get := fun _ => .ok ⟨[⟨1000, []⟩]⟩

/-- C4: the transaction fetch for the retained unspent succeeds, the
recorded index `1` is not a valid position among the single output of the
fetched transaction, and `get_outpoints_for_address` panics
(`tx.output[utxo.tx_pos]` is unchecked `Vec` indexing) instead of returning
a `ChainQueryError` failure. -/
theorem resolver_out_of_range_panics :
    oobClient.transaction_get 7 = .ok ⟨[⟨1000, []⟩]⟩
    ∧ (Tx.mk [⟨1000, []⟩]).output.length ≤ 1
    ∧ (get_outpoints_for_address oobClient ⟨[]⟩ (some 100)).1 = RunRes.panic :=
  ⟨rfl, by decide, by decide⟩

/-! ### C3 -/

/-- Oracle environment whose base64 decoding fails; nothing downstream of
the decode is reachable. -/
def badB64Env : Env where
  base64_decode := fun _ => .error "InvalidByte(0, 33)"
  psbt_deserialize := fun _ => .error "unreached"
  address_from_str := fun _ => .error "unreached"
  client_new := fun _ => .error "unreached"
  verify_proof := fun _ _ _ _ => .error "unreached"

/-- C3 counterexample: with an empty address list and a proof payload that
is not valid base64, the handler reports the base64 decode error, not
`NoAddressProvided` — the decode runs before the empty-address check
(`src/main.rs:100-105`). -/
theorem empty_addresses_decode_error_first :
    (handle_ext_reserves badB64Env "msg" "!!!not-base64" 3 []).1 =
      RunRes.err "Base64 decode error: InvalidByte(0, 33)"
    ∧ (handle_ext_reserves badB64Env "msg" "!!!not-base64" 3 []).1 ≠
      RunRes.err "No address provided" := by
  decide

/-- C3 (amended): for every request whose address list is empty and whose
proof both base64-decodes and deserializes as a PSBT, the result is the
`NoAddressProvided` failure; when decoding or deserialization fails, that
error is reported instead. -/
theorem empty_addresses_no_address_provided (env : Env) (m p : String)
    (conf : Nat) (bs : Bytes) (psbt : Psbt)
    (h1 : env.base64_decode p = .ok bs)
    (h2 : env.psbt_deserialize bs = .ok psbt) :
    handle_ext_reserves env m p conf [] = (RunRes.err "No address provided", []) := by
  simp [handle_ext_reserves, h1, h2]

/-- Oracle environment whose decoding steps succeed trivially. -/
def decodeOkEnv : Env where
  base64_decode := fun _ => .ok []
  psbt_deserialize := fun _ => .ok ⟨[]⟩
  address_from_str := fun _ => .error "unreached"
  client_new := fun _ => .error "unreached"
  verify_proof := fun _ _ _ _ => .error "unreached"

theorem empty_addresses_no_address_provided_witness :
    handle_ext_reserves decodeOkEnv "m" "cHNidA==" 3 [] =
      (RunRes.err "No address provided", []) :=
  empty_addresses_no_address_provided decodeOkEnv "m" "cHNidA==" 3 [] ⟨[]⟩ rfl rfl

/-! ### C5 -/

/-- Chain client that reports no unspent outputs at any script. -/
def listEmptyClient : ChainClient where
  block_height := .ok 100
  script_list_unspent := fun _ => .ok []
  transaction_get := fun _ => .error "unreached"

/-- Oracle environment in which the string `bad` fails address parsing and
every other string parses; decoding and the chain client succeed. -/
def addrEnv : Env where
  base64_decode := fun _ => .ok []
  psbt_deserialize := fun _ => .ok ⟨[]⟩
  address_from_str := fun s =>
    if s = "bad" then .error "Base58(BadByte(63))" else .ok ⟨[1]⟩
  client_new := fun _ => .ok listEmptyClient
  verify_proof := fun _ _ _ _ => .ok 0

/-- C5 counterexample: the `Invalid address: {:?}` failure built at
`src/main.rs:124` contains only the parse error.  The same request with the
offending address at position 0 and at position 1 produces the identical
error value, so the failure cannot name the offending position. -/
theorem invalid_address_position_not_named :
    (handle_ext_reserves addrEnv "m" "p" 3 ["bad", "ok1"]).1 =
      RunRes.err "Invalid address: Base58(BadByte(63))"
    ∧ (handle_ext_reserves addrEnv "m" "p" 3 ["ok1", "bad"]).1 =
      RunRes.err "Invalid address: Base58(BadByte(63))"
    ∧ (handle_ext_reserves addrEnv "m" "p" 3 ["bad", "ok1"]).1 =
      (handle_ext_reserves addrEnv "m" "p" 3 ["ok1", "bad"]).1 := by
  decide

/-- C5 (amended): for every address list containing an unparseable address,
the resolver fails with an `Invalid address` failure carrying the underlying
parse error of the first unparseable address (every earlier address having
parsed and resolved), but not the offending position: the error value is the
same whatever the length of the successful prefix. -/
theorem invalid_address_error_no_index (env : Env) (client : ChainClient)
    (mch : Option Nat) :
    ∀ (pre : List String) (bad : String) (rest : List String) (e : String),
      (∀ a ∈ pre, ∃ addr l tr, env.address_from_str a = .ok addr ∧
        get_outpoints_for_address client addr mch = (RunRes.ok l, tr)) →
      env.address_from_str bad = .error e →
      (resolve_addresses env client mch (pre ++ bad :: rest)).1 =
        RunRes.err ("Invalid address: " ++ e) := by
  intro pre
  induction pre with
  | nil =>
    intro bad rest e _ hbad
    simp [resolve_addresses, hbad]
  | cons a pre ih =>
    intro bad rest e hpre hbad
    obtain ⟨addr, l, tr, ha, hg⟩ := hpre a (by simp)
    have ihres := ih bad rest e (fun x hx => hpre x (by simp [hx])) hbad
    rcases hres : resolve_addresses env client mch (pre ++ bad :: rest) with ⟨r, tr2⟩
    rw [hres] at ihres
    simp only at ihres
    subst ihres
    simp [resolve_addresses, ha, hg, hres]

theorem invalid_address_error_no_index_witness :
    (resolve_addresses addrEnv listEmptyClient (some 97)
        (["ok1"] ++ "bad" :: ["ok2"])).1 =
      RunRes.err ("Invalid address: " ++ "Base58(BadByte(63))") :=
  invalid_address_error_no_index addrEnv listEmptyClient (some 97) ["ok1"] "bad"
    ["ok2"] "Base58(BadByte(63))"
    (by
      intro a ha
      simp only [List.mem_singleton] at ha
      subst ha
      exact ⟨⟨[1]⟩, [], [Event.listUnspentQuery [1]], rfl, rfl⟩)
    rfl

/-! ### C2 -/

theorem removeFirst_none_of_absent (op : OutPoint) :
    ∀ pool : List (OutPoint × TxOut), (pool.any fun p => p.1 = op) = false →
      removeFirst pool op = none := by
  intro pool
  induction pool with
  | nil => intro _; rfl
  | cons p rest ih =>
    intro h
    simp only [List.any_cons, Bool.or_eq_false_iff] at h
    obtain ⟨h1, h2⟩ := h
    have hne : ¬ p.1 = op := by simpa using h1
    simp [removeFirst, hne, ih h2]

theorem removeFirst_some_of_present (op : OutPoint) :
    ∀ pool : List (OutPoint × TxOut), (pool.any fun p => p.1 = op) = true →
      ∃ out pool2, removeFirst pool op = some (out, pool2) ∧
        ∀ q, q ≠ op →
          (pool2.any fun p => p.1 = q) = (pool.any fun p => p.1 = q) := by
  intro pool
  induction pool with
  | nil => intro h; simp at h
  | cons p rest ih =>
    intro h
    by_cases hp : p.1 = op
    · refine ⟨p.2, rest, by simp [removeFirst, hp], ?_⟩
      intro q hq
      have hpq : ¬ p.1 = q := by rw [hp]; exact fun hh => hq hh.symm
      simp [List.any_cons, hpq]
    · have hr : (rest.any fun x => x.1 = op) = true := by
        simpa [hp] using h
      obtain ⟨out, pool2, hrf, hpr⟩ := ih hr
      refine ⟨out, p :: pool2, by simp [removeFirst, hp, hrf], ?_⟩
      intro q hq
      simp [List.any_cons, hpr q hq]

theorem findIdx_opt_congr {α : Type} (p q : α → Bool) :
    ∀ (l : List α) (i : Nat), (∀ x ∈ l, p x = q x) →
      l.findIdx? p i = l.findIdx? q i := by
  intro l
  induction l with
  | nil => intro i _; rfl
  | cons a l ih =>
    intro i h
    rw [List.findIdx?_cons, List.findIdx?_cons, h a (by simp)]
    by_cases hq : q a = true
    · rw [if_pos hq, if_pos hq]
    · rw [if_neg hq, if_neg hq]
      exact ih (i + 1) fun x hx => h x (by simp [hx])

theorem matchReserves_error_at_first_absent :
    ∀ (reserves : List OutPoint) (pool : List (OutPoint × TxOut)) (k j : Nat),
      reserves.Nodup →
      reserves.findIdx? (fun op => ! pool.any fun p => p.1 = op) k = some j →
      matchReserves pool reserves k = .error j := by
  intro reserves
  induction reserves with
  | nil => intro pool k j _ h; simp [List.findIdx?_nil] at h
  | cons r rest ih =>
    intro pool k j hnd hfind
    simp only [List.findIdx?_cons] at hfind
    cases hb : (pool.any fun p => p.1 = r) with
    | false =>
      rw [if_pos (by simp [hb])] at hfind
      cases hfind
      simp [matchReserves, removeFirst_none_of_absent r pool hb]
    | true =>
      rw [if_neg (by simp [hb])] at hfind
      obtain ⟨out, pool2, hrf, hpr⟩ := removeFirst_some_of_present r pool hb
      have hnotin : r ∉ rest := (List.nodup_cons.mp hnd).1
      have hcong :
          rest.findIdx? (fun op => ! pool2.any fun p => p.1 = op) (k + 1)
            = rest.findIdx? (fun op => ! pool.any fun p => p.1 = op) (k + 1) := by
        apply findIdx_opt_congr
        intro x hx
        have hxr : x ≠ r := fun hxe => hnotin (hxe ▸ hx)
        rw [hpr x hxr]
      have hrec := ih pool2 (k + 1) j (List.nodup_cons.mp hnd).2
        (hcong.trans hfind)
      simp [matchReserves, hrf, hrec]

/-- C2 (amended): for every proof whose commitment input matches the
challenge message and whose reserve-input previous outpoints are pairwise
distinct, if at least one reserve input's outpoint is absent from the
resolved UTXO list, verification fails with `NonSpendableInput i` where `i`
is the input index of the first such input in ascending order — regardless
of the signature validity of any input (the `sig_ok` oracle is arbitrary)
and of the remaining inputs. -/
theorem nonspendable_first_missing_input (commitment : String → OutPoint)
    (sig_ok : Nat → Bool) (tx : ProofTx) (message : String)
    (outpoints : List (OutPoint × TxOut)) (c : OutPoint)
    (reserves : List OutPoint) (i : Nat)
    (hinp : tx.inputs = c :: reserves)
    (hc : c = commitment message)
    (hnd : reserves.Nodup)
    (habs : firstAbsentIdx outpoints reserves = some i) :
    verify_proof_model commitment sig_ok tx message outpoints =
      .error (.NonSpendableInput i) := by
  have hmr : matchReserves outpoints reserves 1 = .error i :=
    matchReserves_error_at_first_absent reserves outpoints 1 i hnd habs
  simp [verify_proof_model, hinp, hc, hmr]

/-- Outpoints and output used by the C2 counterexample and witness. -/
def opA : OutPoint := ⟨1, 0⟩

def opB : OutPoint := ⟨2, 0⟩

def opC : OutPoint := ⟨3, 0⟩

def outX : TxOut := ⟨500, []⟩

/-- C2 counterexample: reserve inputs `[opB, opB, opC]` against the resolved
list `[(opB, outX)]`.  The only input whose outpoint is absent from the
resolved list is the third reserve input (`opC`, input index 3), yet
verification reports `NonSpendableInput 2`: the second input fails because
the spec's verifier consumes the single `opB` record when matching the first
reserve input (§4.3 step 2). -/
theorem nonspendable_duplicate_counterexample :
    verify_proof_model (fun _ => opA) (fun _ => true)
        (ProofTx.mk [opA, opB, opB, opC]) "msg" [(opB, outX)] =
      .error (.NonSpendableInput 2)
    ∧ firstAbsentIdx [(opB, outX)] [opB, opB, opC] = some 3
    ∧ (Except.error (ProofError.NonSpendableInput 2) :
        Except ProofError Nat) ≠ .error (.NonSpendableInput 3) :=
  ⟨rfl, rfl, by simp⟩

theorem nonspendable_first_missing_input_witness :
    verify_proof_model (fun _ => opA) (fun _ => false)
        (ProofTx.mk [opA, opB, opC]) "msg" [(opB, outX)] =
      .error (.NonSpendableInput 2) :=
  nonspendable_first_missing_input (fun _ => opA) (fun _ => false)
    (ProofTx.mk [opA, opB, opC]) "msg" [(opB, outX)] opA [opB, opC] 2
    rfl rfl (by decide) (by decide)

/-! ### C6 -/

theorem usizeSub_eq_sub (a b : Nat) (hba : b ≤ a) (ha : a ≤ USIZE_MAX) :
    usizeSub a b = a - b := by
  have hlt : a - b < USIZE_MAX + 1 := by
    unfold USIZE_MAX at ha ⊢
    omega
  have hsplit : a + (USIZE_MAX + 1) - b = (a - b) + (USIZE_MAX + 1) := by omega
  rw [usizeSub, hsplit, Nat.add_mod_right, Nat.mod_eq_of_lt hlt]

theorem heightQuery_not_in_resolve_utxos (client : ChainClient) :
    ∀ us : List ListUnspentRes,
      Event.heightQuery ∉ (resolve_utxos client us).2 := by
  intro us
  induction us with
  | nil => simp [resolve_utxos]
  | cons u rest ih =>
    simp only [resolve_utxos]
    split
    · simp
    · split
      · simp
      · rcases hres : resolve_utxos client rest with ⟨r, tr⟩
        rw [hres] at ih
        simp only at ih
        cases r <;> simp_all

theorem heightQuery_not_in_get_outpoints (client : ChainClient)
    (address : Address) (mch : Option Nat) :
    Event.heightQuery ∉ (get_outpoints_for_address client address mch).2 := by
  unfold get_outpoints_for_address
  split
  · simp
  · simp [heightQuery_not_in_resolve_utxos]

theorem heightQuery_not_in_resolve_addresses (env : Env) (client : ChainClient)
    (mch : Option Nat) :
    ∀ addrs : List String,
      Event.heightQuery ∉ (resolve_addresses env client mch addrs).2 := by
  intro addrs
  induction addrs with
  | nil => simp [resolve_addresses]
  | cons a rest ih =>
    simp only [resolve_addresses]
    split
    · simp
    · rename_i addr ha
      split
      · rename_i e tr heq
        intro hm
        exact heightQuery_not_in_get_outpoints client addr mch (by rw [heq]; exact hm)
      · rename_i tr heq
        intro hm
        exact heightQuery_not_in_get_outpoints client addr mch (by rw [heq]; exact hm)
      · rename_i outs tr heq
        split
        · rename_i l tr2 heq2
          intro hm
          rcases List.mem_append.mp hm with hmm | hmm
          · exact heightQuery_not_in_get_outpoints client addr mch
              (by rw [heq]; exact hmm)
          · exact ih (by rw [heq2]; exact hmm)
        · rename_i e tr2 heq2
          intro hm
          rcases List.mem_append.mp hm with hmm | hmm
          · exact heightQuery_not_in_get_outpoints client addr mch
              (by rw [heq]; exact hmm)
          · exact ih (by rw [heq2]; exact hmm)
        · rename_i tr2 heq2
          intro hm
          rcases List.mem_append.mp hm with hmm | hmm
          · exact heightQuery_not_in_get_outpoints client addr mch
              (by rw [heq]; exact hmm)
          · exact ih (by rw [heq2]; exact hmm)

theorem heightQuery_not_in_after_height (env : Env) (m : String) (psbt : Psbt)
    (client : ChainClient) (network : Network) (mch : Option Nat)
    (addrs : List String) :
    Event.heightQuery ∉ (after_height env m psbt client network mch addrs).2 := by
  unfold after_height
  split
  · rename_i e tr heq
    intro hm
    exact heightQuery_not_in_resolve_addresses env client mch addrs
      (by rw [heq]; exact hm)
  · rename_i tr heq
    intro hm
    exact heightQuery_not_in_resolve_addresses env client mch addrs
      (by rw [heq]; exact hm)
  · rename_i per tr heq
    dsimp only
    split
    · intro hm
      rcases List.mem_append.mp hm with hmm | hmm
      · exact heightQuery_not_in_resolve_addresses env client mch addrs
          (by rw [heq]; exact hmm)
      · simp at hmm
    · intro hm
      rcases List.mem_append.mp hm with hmm | hmm
      · exact heightQuery_not_in_resolve_addresses env client mch addrs
          (by rw [heq]; exact hmm)
      · simp at hmm

theorem handle_reach_eq (env : Env) (m p : String) (conf : Nat) (a0 : String)
    (rest : List String) (bs : Bytes) (psbt : Psbt) (client : ChainClient)
    (h : Nat)
    (h1 : env.base64_decode p = .ok bs)
    (h2 : env.psbt_deserialize bs = .ok psbt)
    (h3 : env.client_new (select_server_network a0).1 = .ok client)
    (h4 : client.block_height = .ok h) :
    handle_ext_reserves env m p conf (a0 :: rest) =
      ((after_height env m psbt client (select_server_network a0).2
          (some (usizeSub h conf)) (a0 :: rest)).1,
       Event.mkClientCall (select_server_network a0).1 :: Event.heightQuery ::
         (after_height env m psbt client (select_server_network a0).2
           (some (usizeSub h conf)) (a0 :: rest)).2) := by
  simp [handle_ext_reserves, h1, h2, h3, h4]

/-- C6: for every request that reaches the chain (decodes, has a first
address, creates its client, and reads the height `h`), the event trace
contains exactly one height query, and the rest of the pipeline is the
`after_height` tail evaluated at the single threshold `h - conf` — exact
integer subtraction (hypotheses `conf ≤ h ≤ usize::MAX` rule out wraparound)
— shared by every address of the list. -/
theorem height_queried_once_shared_threshold (env : Env) (m p : String)
    (conf : Nat) (a0 : String) (rest : List String) (bs : Bytes) (psbt : Psbt)
    (client : ChainClient) (h : Nat)
    (h1 : env.base64_decode p = .ok bs)
    (h2 : env.psbt_deserialize bs = .ok psbt)
    (h3 : env.client_new (select_server_network a0).1 = .ok client)
    (h4 : client.block_height = .ok h)
    (h5 : conf ≤ h) (h6 : h ≤ USIZE_MAX) :
    ((handle_ext_reserves env m p conf (a0 :: rest)).2.count Event.heightQuery = 1)
    ∧ handle_ext_reserves env m p conf (a0 :: rest) =
        ((after_height env m psbt client (select_server_network a0).2
            (some (h - conf)) (a0 :: rest)).1,
         Event.mkClientCall (select_server_network a0).1 :: Event.heightQuery ::
           (after_height env m psbt client (select_server_network a0).2
             (some (h - conf)) (a0 :: rest)).2) := by
  have heq := handle_reach_eq env m p conf a0 rest bs psbt client h h1 h2 h3 h4
  rw [usizeSub_eq_sub h conf h5 h6] at heq
  refine ⟨?_, heq⟩
  have hz : ((after_height env m psbt client (select_server_network a0).2
      (some (h - conf)) (a0 :: rest)).2).count Event.heightQuery = 0 :=
    List.count_eq_zero.mpr
      (heightQuery_not_in_after_height env m psbt client
        (select_server_network a0).2 (some (h - conf)) (a0 :: rest))
  rw [heq]
  simp [List.count_cons, hz]

/-- Chain client for the success-path witnesses: height 103, one unspent of
value 7 at outpoint (9, 0), confirmed at height 5. -/
def fullClient : ChainClient where
  block_height := .ok 103
  script_list_unspent := fun _ => .ok [⟨9, 0, 5, 7⟩]
  transaction_get := fun _ => .ok ⟨[⟨7, []⟩]⟩

/-- Oracle environment for the success-path witnesses; `verify_proof` sums
the resolved output values. -/
def fullEnv : Env where
  base64_decode := fun _ => .ok []
  psbt_deserialize := fun _ => .ok ⟨[]⟩
  address_from_str := fun _ => .ok ⟨[1]⟩
  client_new := fun _ => .ok fullClient
  verify_proof := fun _ _ outs _ => .ok (outs.map fun q => q.2.value).sum

theorem height_queried_once_shared_threshold_witness :
    ((handle_ext_reserves fullEnv "m" "p" 3 ["addr1"]).2.count Event.heightQuery = 1)
    ∧ handle_ext_reserves fullEnv "m" "p" 3 ["addr1"] =
        ((after_height fullEnv "m" ⟨[]⟩ fullClient (select_server_network "addr1").2
            (some (103 - 3)) ["addr1"]).1,
         Event.mkClientCall (select_server_network "addr1").1 :: Event.heightQuery ::
           (after_height fullEnv "m" ⟨[]⟩ fullClient (select_server_network "addr1").2
             (some (103 - 3)) ["addr1"]).2) :=
  height_queried_once_shared_threshold fullEnv "m" "p" 3 "addr1" [] [] ⟨[]⟩
    fullClient 103 rfl rfl rfl rfl (by decide) (by decide)

/-! ### C7 -/

/-- The per-address lists the resolver produced, position by position: for
the i-th address (address-list order), the i-th element of `per` is exactly
the record list `get_outpoints_for_address` returned for its parsed form
(per-address discovery order). -/
def per_address_ok (env : Env) (client : ChainClient) (mch : Option Nat) :
    List String → List (List (OutPoint × TxOut)) → Prop
  | [], per => per = []
  | a :: rest, per =>
    ∃ addr l per2, per = l :: per2 ∧ env.address_from_str a = .ok addr ∧
      (get_outpoints_for_address client addr mch).1 = RunRes.ok l ∧
      per_address_ok env client mch rest per2

theorem foldl_append_eq_flatten {α : Type} :
    ∀ (per : List (List α)) (acc : List α),
      per.foldl (fun outpoints outs => outpoints ++ outs) acc
        = acc ++ per.flatten := by
  intro per
  induction per with
  | nil => intro acc; simp
  | cons l per ih => intro acc; simp [List.foldl_cons, ih, List.append_assoc]

/-- C7: whenever the per-address resolution succeeds, its result pairs each
address, in address-list order, with its own retained record list in
discovery order (`per_address_ok`); the combined list built by the source's
fold is their flat concatenation; and no deduplication happens — every
record occurs in the combined list as many times in total as it occurs in
the per-address lists. -/
theorem resolver_concatenation (env : Env) (client : ChainClient)
    (mch : Option Nat) :
    ∀ (addrs : List String) (per : List (List (OutPoint × TxOut)))
      (tr : List Event),
      resolve_addresses env client mch addrs = (RunRes.ok per, tr) →
      per_address_ok env client mch addrs per
      ∧ per.foldl (fun outpoints outs => outpoints ++ outs) [] = per.flatten
      ∧ ∀ x, (per.foldl (fun outpoints outs => outpoints ++ outs) []).count x
          = (per.map fun l => l.count x).sum := by
  have hfold : ∀ per : List (List (OutPoint × TxOut)),
      per.foldl (fun outpoints outs => outpoints ++ outs) [] = per.flatten := by
    intro per
    simpa using foldl_append_eq_flatten per []
  have hcount : ∀ (per : List (List (OutPoint × TxOut))) (x : OutPoint × TxOut),
      (per.foldl (fun outpoints outs => outpoints ++ outs) []).count x
        = (per.map fun l => l.count x).sum := by
    intro per x
    rw [hfold, List.count_flatten]
  intro addrs
  induction addrs with
  | nil =>
    intro per tr hres
    simp only [resolve_addresses, Prod.mk.injEq, RunRes.ok.injEq] at hres
    obtain ⟨hper, -⟩ := hres
    subst hper
    exact ⟨by simp [per_address_ok], hfold _, fun x => hcount _ x⟩
  | cons a rest ih =>
    intro per tr hres
    simp only [resolve_addresses] at hres
    split at hres
    · simp at hres
    · rename_i addr ha
      split at hres
      · simp at hres
      · simp at hres
      · rename_i outs tr1 heq
        split at hres
        · rename_i l tr2 heq2
          simp only [Prod.mk.injEq, RunRes.ok.injEq] at hres
          obtain ⟨hper, -⟩ := hres
          subst hper
          obtain ⟨hpa, -, -⟩ := ih l tr2 heq2
          exact ⟨⟨addr, outs, l, rfl, ha, by rw [heq], hpa⟩, hfold _,
            fun x => hcount _ x⟩
        · simp at hres
        · simp at hres

theorem resolver_concatenation_witness :
    per_address_ok fullEnv fullClient (some 100) ["a", "b"]
        [[(OutPoint.mk 9 0, TxOut.mk 7 [])], [(OutPoint.mk 9 0, TxOut.mk 7 [])]]
    ∧ ([[(OutPoint.mk 9 0, TxOut.mk 7 [])],
        [(OutPoint.mk 9 0, TxOut.mk 7 [])]].foldl
          (fun outpoints outs => outpoints ++ outs) []).count
        (OutPoint.mk 9 0, TxOut.mk 7 []) = 2 :=
  have hmain := resolver_concatenation fullEnv fullClient (some 100) ["a", "b"]
    [[(OutPoint.mk 9 0, TxOut.mk 7 [])], [(OutPoint.mk 9 0, TxOut.mk 7 [])]]
    [Event.listUnspentQuery [1], Event.txQuery 9,
     Event.listUnspentQuery [1], Event.txQuery 9]
    (by decide)
  ⟨hmain.1, (hmain.2.2 (OutPoint.mk 9 0, TxOut.mk 7 [])).trans (by decide)⟩

/-! ### C8 -/

theorem after_height_ok_spendable (env : Env) (m : String) (psbt : Psbt)
    (client : ChainClient) (network : Network) (mch : Option Nat)
    (addrs : List String) (v : Json)
    (hok : (after_height env m psbt client network mch addrs).1 = RunRes.ok v) :
    ∃ n, v = Json.spendable n := by
  unfold after_height at hok
  split at hok
  · simp at hok
  · simp at hok
  · dsimp only at hok
    split at hok
    · simp at hok
    · rename_i n hn
      simp only [RunRes.ok.injEq] at hok
      exact ⟨n, hok.symm⟩

theorem handle_ok_spendable (env : Env) (m p : String) (conf : Nat)
    (addrs : List String) (v : Json)
    (hok : (handle_ext_reserves env m p conf addrs).1 = RunRes.ok v) :
    ∃ n, v = Json.spendable n := by
  unfold handle_ext_reserves at hok
  split at hok
  · simp at hok
  · split at hok
    · simp at hok
    · split at hok
      · simp at hok
      · dsimp only at hok
        split at hok
        · simp at hok
        · split at hok
          · simp at hok
          · dsimp only at hok
            exact after_height_ok_spendable _ _ _ _ _ _ _ _ hok

/-- C8: for every request whose handling does not panic, exactly one of the
two counters moves: the sum of the counters rises by one; when
`handle_ext_reserves` fails the invalid-proof counter alone is incremented
and the response is the error payload; when it succeeds the success counter
alone is incremented, the response is the verification result, and that
result carries a proven spendable total; and one of those two cases always
holds. -/
theorem counters_exactly_one (env : Env) (m p : String) (addrs : List String)
    (cnt : Counters)
    (hnp : (handle_ext_reserves env m p 3 addrs).1 ≠ RunRes.panic) :
    ((check_proof env m p addrs cnt).2.1.por_success
        + (check_proof env m p addrs cnt).2.1.por_invalid
      = cnt.por_success + cnt.por_invalid + 1)
    ∧ (∀ e, (handle_ext_reserves env m p 3 addrs).1 = RunRes.err e →
        (check_proof env m p addrs cnt).2.1
            = Counters.mk cnt.por_success (cnt.por_invalid + 1)
          ∧ (check_proof env m p addrs cnt).1 = RunRes.ok (Json.error e))
    ∧ (∀ v, (handle_ext_reserves env m p 3 addrs).1 = RunRes.ok v →
        (check_proof env m p addrs cnt).2.1
            = Counters.mk (cnt.por_success + 1) cnt.por_invalid
          ∧ (check_proof env m p addrs cnt).1 = RunRes.ok v
          ∧ ∃ n, v = Json.spendable n)
    ∧ ((∃ e, (handle_ext_reserves env m p 3 addrs).1 = RunRes.err e)
        ∨ (∃ v, (handle_ext_reserves env m p 3 addrs).1 = RunRes.ok v)) := by
  rcases hh : handle_ext_reserves env m p 3 addrs with ⟨r, tr⟩
  cases r with
  | panic =>
    exact absurd (show (handle_ext_reserves env m p 3 addrs).1 = RunRes.panic by
      rw [hh]) hnp
  | err e =>
    refine ⟨?_, ?_, ?_, Or.inl ⟨e, rfl⟩⟩
    · simp only [check_proof, hh]
      omega
    · intro e2 he2
      dsimp only at he2
      injection he2 with he2
      subst he2
      constructor
      · simp [check_proof, hh]
      · simp [check_proof, hh]
    · intro v hv
      dsimp only at hv
      cases hv
  | ok v =>
    have hsp := handle_ok_spendable env m p 3 addrs v (by rw [hh])
    refine ⟨?_, ?_, ?_, Or.inr ⟨v, rfl⟩⟩
    · simp only [check_proof, hh]
      omega
    · intro e2 he2
      dsimp only at he2
      cases he2
    · intro v2 hv2
      dsimp only at hv2
      injection hv2 with hv2
      subst hv2
      exact ⟨by simp [check_proof, hh], by simp [check_proof, hh], hsp⟩

theorem counters_exactly_one_witness :
    ((check_proof badB64Env "m" "p" [] ⟨0, 0⟩).2.1.por_success
        + (check_proof badB64Env "m" "p" [] ⟨0, 0⟩).2.1.por_invalid = 0 + 0 + 1)
    ∧ (check_proof badB64Env "m" "p" [] ⟨0, 0⟩).2.1 = Counters.mk 0 (0 + 1)
    ∧ (check_proof badB64Env "m" "p" [] ⟨0, 0⟩).1
        = RunRes.ok (Json.error "Base64 decode error: InvalidByte(0, 33)") :=
  have hmain := counters_exactly_one badB64Env "m" "p" [] ⟨0, 0⟩ (by decide)
  ⟨hmain.1,
   (hmain.2.1 "Base64 decode error: InvalidByte(0, 33)" rfl).1,
   (hmain.2.1 "Base64 decode error: InvalidByte(0, 33)" rfl).2⟩

/-! ### C9 -/

/-- C9: the network and server are selected solely from the first address:
testnet exactly when its first character is `2`, mainnet otherwise; every
request that decodes talks to the server selected this way (the first
logged event is the client construction for it); and a bech32 testnet
address such as `tb1q...` does not start with `2`, so it is queried against
mainnet. -/
theorem network_from_first_address (env : Env) (m p : String) (conf : Nat)
    (a0 : String) (rest : List String) (bs : Bytes) (psbt : Psbt)
    (h1 : env.base64_decode p = .ok bs)
    (h2 : env.psbt_deserialize bs = .ok psbt) :
    ((select_server_network a0).2 = Network.testnet ↔ a0.data.head? = some '2')
    ∧ ((select_server_network a0).1 = "ssl://electrum.blockstream.info:60002"
        ↔ a0.data.head? = some '2')
    ∧ ((select_server_network a0).2 = Network.bitcoin
        ↔ ¬ a0.data.head? = some '2')
    ∧ (∃ tr2, (handle_ext_reserves env m p conf (a0 :: rest)).2
        = Event.mkClientCall (select_server_network a0).1 :: tr2)
    ∧ (starts_with_two "tb1q" = false
        ∧ select_server_network "tb1q"
          = ("ssl://electrum.blockstream.info:50002", Network.bitcoin)) := by
  have hsw : starts_with_two a0 = true ↔ a0.data.head? = some '2' := by
    unfold starts_with_two
    cases hd : a0.data with
    | nil => simp
    | cons c cs => simp
  refine ⟨?_, ?_, ?_, ?_, by decide, by decide⟩
  · rw [← hsw]
    unfold select_server_network
    cases hb : starts_with_two a0 <;> simp [hb]
  · rw [← hsw]
    unfold select_server_network
    cases hb : starts_with_two a0 <;> simp [hb]
  · rw [← hsw]
    unfold select_server_network
    cases hb : starts_with_two a0 <;> simp [hb]
  · rcases hc : env.client_new (select_server_network a0).1 with e | client
    · exact ⟨[], by simp [handle_ext_reserves, h1, h2, hc]⟩
    · rcases hh : client.block_height with e2 | ht
      · exact ⟨[Event.heightQuery], by simp [handle_ext_reserves, h1, h2, hc, hh]⟩
      · exact ⟨Event.heightQuery ::
          (after_height env m psbt client (select_server_network a0).2
            (some (usizeSub ht conf)) (a0 :: rest)).2,
          by simp [handle_ext_reserves, h1, h2, hc, hh]⟩

theorem network_from_first_address_witness :
    ((select_server_network "2NB3").2 = Network.testnet
        ↔ "2NB3".data.head? = some '2')
    ∧ ((select_server_network "2NB3").1 = "ssl://electrum.blockstream.info:60002"
        ↔ "2NB3".data.head? = some '2')
    ∧ ((select_server_network "2NB3").2 = Network.bitcoin
        ↔ ¬ "2NB3".data.head? = some '2')
    ∧ (∃ tr2, (handle_ext_reserves fullEnv "m" "p" 3 ["2NB3"]).2
        = Event.mkClientCall (select_server_network "2NB3").1 :: tr2)
    ∧ (starts_with_two "tb1q" = false
        ∧ select_server_network "tb1q"
          = ("ssl://electrum.blockstream.info:50002", Network.bitcoin)) :=
  network_from_first_address fullEnv "m" "p" 3 "2NB3" [] [] ⟨[]⟩ rfl rfl

/-! ### C10 -/

/-- C10: `check_proof` takes no confirmation-depth parameter; the call it
makes passes the constant `3`, so for every request that reaches the chain
the pipeline runs at the single threshold `h - 3` (with `3 ≤ h ≤ usize::MAX`
the subtraction is exact) and the counters and response are determined by
its outcome.  Callers cannot influence the confirmation depth. -/
theorem confirmations_constant_three (env : Env) (m p : String) (a0 : String)
    (rest : List String) (cnt : Counters) (bs : Bytes) (psbt : Psbt)
    (client : ChainClient) (h : Nat)
    (h1 : env.base64_decode p = .ok bs)
    (h2 : env.psbt_deserialize bs = .ok psbt)
    (h3 : env.client_new (select_server_network a0).1 = .ok client)
    (h4 : client.block_height = .ok h)
    (h5 : 3 ≤ h) (h6 : h ≤ USIZE_MAX) :
    check_proof env m p (a0 :: rest) cnt =
      (match (after_height env m psbt client (select_server_network a0).2
          (some (h - 3)) (a0 :: rest)).1 with
       | RunRes.err e =>
         (RunRes.ok (Json.error e),
          { cnt with por_invalid := cnt.por_invalid + 1 },
          Event.mkClientCall (select_server_network a0).1 :: Event.heightQuery ::
            (after_height env m psbt client (select_server_network a0).2
              (some (h - 3)) (a0 :: rest)).2)
       | RunRes.ok res =>
         (RunRes.ok res,
          { cnt with por_success := cnt.por_success + 1 },
          Event.mkClientCall (select_server_network a0).1 :: Event.heightQuery ::
            (after_height env m psbt client (select_server_network a0).2
              (some (h - 3)) (a0 :: rest)).2)
       | RunRes.panic =>
         (RunRes.panic, cnt,
          Event.mkClientCall (select_server_network a0).1 :: Event.heightQuery ::
            (after_height env m psbt client (select_server_network a0).2
              (some (h - 3)) (a0 :: rest)).2)) := by
  have heq := handle_reach_eq env m p 3 a0 rest bs psbt client h h1 h2 h3 h4
  rw [usizeSub_eq_sub h 3 h5 h6] at heq
  cases hv : (after_height env m psbt client (select_server_network a0).2
      (some (h - 3)) (a0 :: rest)).1 with
  | ok v => rw [check_proof.eq_def, heq, hv]
  | err e => rw [check_proof.eq_def, heq, hv]
  | panic => rw [check_proof.eq_def, heq, hv]

theorem confirmations_constant_three_witness :
    check_proof fullEnv "m" "p" ["addr1"] ⟨0, 0⟩ =
      (RunRes.ok (Json.spendable 7), Counters.mk 1 0,
       [Event.mkClientCall "ssl://electrum.blockstream.info:50002",
        Event.heightQuery, Event.listUnspentQuery [1], Event.txQuery 9,
        Event.verifyCall Network.bitcoin]) :=
  (confirmations_constant_three fullEnv "m" "p" "addr1" [] ⟨0, 0⟩ [] ⟨[]⟩
    fullClient 103 rfl rfl rfl rfl (by decide) (by decide)).trans (by decide)

end BdkReservesWeb
